import Mathlib

/-!
Shallow embedding of the chunked file-transfer store in
`src/pages/index.tsx` (idb-file-streams).

The store keeps, per registered file key, a sliding half-open window
`[left, right)` over the file's bytes.  `onFileSelect` registers a file,
`readChunk` reads the current window without mutating it,
`acknowledgeChunk` advances the window, `hasNextChunk` queries it, and
`subscribe` manages a set of event callbacks that every operation
notifies via `subscribers.forEach`.
-/

set_option autoImplicit false

namespace IdbFileStreams

/-- A file as the store sees it: a name, a size, and a byte-content
function (`file.slice(l, r)` yields the bytes at indices `[l, r)`). -/
structure File where
  name : String
  size : Nat
  content : Nat → Nat

/-- `file.slice(l, r)` from the source: the bytes at indices `[l, r)`. -/
def File.slice (f : File) (l r : Nat) : List Nat :=
  (List.range (r - l)).map (fun i => f.content (l + i))

/-- The per-key record held in `state`: the window `[left, right)` and
the file it ranges over (source: the `State` type). -/
structure FileMeta where
  left : Nat
  right : Nat
  file : File

/-- File keys are strings (`file.name + Date.now()` in the source). -/
abbrev Key := String

/-- The store's `state` object: a key-indexed record, modelled as an
association list where assignment replaces an existing binding. -/
abbrev StoreState := List (Key × FileMeta)

/-- `state[fileKey]` lookup. -/
def lookupKey : StoreState → Key → Option FileMeta
  | [], _ => none
  | (k, m) :: rest, key => if k = key then some m else lookupKey rest key

/-- `state[fileKey] = meta` assignment: replaces the binding if the key
is present, otherwise appends it. -/
def setKey : StoreState → Key → FileMeta → StoreState
  | [], key, meta => [(key, meta)]
  | (k, m) :: rest, key, meta =>
      if k = key then (k, meta) :: rest else (k, m) :: setKey rest key meta

/-- The three event names of the `Event` union type. -/
inductive EventName where
  | fileSelect
  | chunkRead
  | chunkAcknowledge
  deriving DecidableEq, Repr

/-- An `Event`: a file key tagged with an event name. -/
structure Event where
  fileKey : Key
  name : EventName
  deriving DecidableEq, Repr

/-- Errors thrown by `acknowledgeChunk` (`AcknowledgeChunkError`). -/
inductive AckErr where
  | noFile
  | eof
  deriving DecidableEq, Repr

/-- Errors rejected by `readChunk` (`ReadChunkError`). -/
inductive ReadErr where
  | noFile
  | eof
  | noChunk
  deriving DecidableEq, Repr

/-- `onFileSelect`: if the change event carries no file, return without
touching anything; otherwise register the file under
`file.name + Date.now()` with window `[0, min chunkSize file.size)` and
publish one `file-select` event.  Returns the new state and the list of
events published. -/
def onFileSelect (chunkSize : Nat) (st : StoreState) (fileOpt : Option File)
    (now : String) : StoreState × List Event :=
  match fileOpt with
  | none => (st, [])
  | some file =>
      let fileKey := file.name ++ now
      (setKey st fileKey ⟨0, min chunkSize file.size, file⟩,
       [⟨fileKey, EventName.fileSelect⟩])

/-- `acknowledgeChunk`: throws `no-file` for an absent key, `eof` when
`left == right`; otherwise sets `left := right`,
`right := min (right + chunkSize) file.size` and publishes one
`chunk-acknowledge` event.  The result records the thrown error or
success, the state after the call, and the events published. -/
def acknowledgeChunk (chunkSize : Nat) (st : StoreState) (key : Key) :
    Except AckErr Unit × StoreState × List Event :=
  match lookupKey st key with
  | none => (Except.error AckErr.noFile, st, [])
  | some m =>
      if m.left = m.right then (Except.error AckErr.eof, st, [])
      else
        let m' : FileMeta :=
          ⟨m.right, min (m.right + chunkSize) m.file.size, m.file⟩
        (Except.ok (), setKey st key m', [⟨key, EventName.chunkAcknowledge⟩])

/-- The outcome of a `readChunk` call: the promise's resolution or
rejection, the store state after the call, whether the underlying
`FileReader` byte-range read was started, and the events published. -/
structure ReadOutcome where
  result : Except ReadErr (List Nat)
  state : StoreState
  sourceContacted : Bool
  events : List Event

/-- `readChunk`: rejects `no-file` for an absent key and `eof` when
`left == right`, both before constructing the `FileReader`; otherwise it
reads `file.slice(left, right)`.  `readerOk` models whether the
`FileReader` produced a usable `ArrayBuffer` (`false` is the
null-or-string result, rejected as `no-chunk`).  The window is never
written. -/
def readChunk (st : StoreState) (key : Key) (readerOk : Bool) : ReadOutcome :=
  match lookupKey st key with
  | none => ⟨Except.error ReadErr.noFile, st, false, []⟩
  | some m =>
      if m.left = m.right then ⟨Except.error ReadErr.eof, st, false, []⟩
      else if readerOk then
        ⟨Except.ok (m.file.slice m.left m.right), st, true,
         [⟨key, EventName.chunkRead⟩]⟩
      else
        ⟨Except.error ReadErr.noChunk, st, true, []⟩

/-- `hasNextChunk`: `false` for an absent key, otherwise
`left != right`. -/
def hasNextChunk (st : StoreState) (key : Key) : Bool :=
  match lookupKey st key with
  | none => false
  | some m => m.left != m.right

/-! ## Subscription plumbing

`subscribers` is a JS `Set<Subscriber>`: insertion-ordered, duplicates
collapse on `add`, and `delete` removes a member.  We identify callbacks
by a numeric identity and keep the set as an insertion-ordered,
duplicate-free list. -/

/-- Identity of a subscriber callback. -/
abbrev SubId := Nat

/-- `subscribers.add(cb)`: a no-op when the callback is already a
member, otherwise appended at the end (JS `Set` insertion order). -/
def subAdd (subs : List SubId) (cb : SubId) : List SubId :=
  if cb ∈ subs then subs else subs ++ [cb]

/-- `subscribers.delete(cb)` — the body of the unsubscribe closure
returned by `subscribe`. -/
def subDelete (subs : List SubId) (cb : SubId) : List SubId :=
  subs.filter (fun x => x ≠ cb)

/-- One publish pass, `subscribers.forEach((s) => s(e))`, over the LIVE
set, with `deleted` the members unsubscribed so far during this pass.
`eff cb` is the list of subscribers that callback `cb` unsubscribes
while handling the event.  Per the `Set.prototype.forEach` contract,
members are visited in insertion order and a member deleted before
being visited is skipped.  Returns the callbacks invoked, in order. -/
def forEachLiveAux (eff : SubId → List SubId) :
    List SubId → List SubId → List SubId
  | _, [] => []
  | deleted, cb :: rest =>
      if cb ∈ deleted then forEachLiveAux eff deleted rest
      else cb :: forEachLiveAux eff (deleted ++ eff cb) rest

/-- The callbacks a publish pass invokes, given the subscriber set at
publish time and each callback's unsubscription effect. -/
def forEachLive (eff : SubId → List SubId) (subs : List SubId) :
    List SubId :=
  forEachLiveAux eff [] subs

/-- The spec's snapshot delivery ("an immutable snapshot copy per
publish"): every callback subscribed at publish time is invoked,
whatever the callbacks unsubscribe during the pass. -/
def forEachSnapshot (_eff : SubId → List SubId) (subs : List SubId) :
    List SubId := subs

/-! ## Window-state counting

Every reachable window has `right = min (left + chunkSize) size`
(`onFileSelect` creates `[0, min chunkSize size)` and `acknowledgeChunk`
maps `[l, r)` to `[r, min (r + chunkSize) size)`).  `windowSteps` counts
the non-terminal window states visited before `left = right`, applying
exactly the `acknowledgeChunk` advance at every step; `fuel` only bounds
the recursion. -/

/-- Count the non-terminal window states of a file of `size` bytes,
starting from window `(left, right)` and advancing as
`acknowledgeChunk` does. -/
def windowSteps (chunkSize size : Nat) : Nat → Nat × Nat → Nat
  | 0, _ => 0
  | fuel + 1, (l, r) =>
      if l = r then 0
      else windowSteps chunkSize size fuel (r, min (r + chunkSize) size) + 1

/-! ## The driver subscriber

The `store.subscribe` callback at the bottom of `src/pages/index.tsx`:
on a `file-select` event it opens a sink and loops
`while (store.hasNextChunk(key) && errorCount < 3)`, each iteration
doing read → write → acknowledge inside a `try`, with `errorCount++` in
the `catch`.  `errorCount` is never reset.  The oracle lists each
iteration's fate: `true` = read and write both succeed and the chunk is
acknowledged; `false` = some step threw, leaving the store unchanged.
Returns `none` when the oracle is exhausted with the loop still
running. -/
def driverLoop (chunkSize : Nat) (key : Key) :
    StoreState → Nat → List Bool → Option (StoreState × Nat)
  | st, errorCount, oracle =>
      if hasNextChunk st key = true ∧ errorCount < 3 then
        match oracle with
        | [] => none
        | ok :: rest =>
            if ok then
              driverLoop chunkSize key
                (acknowledgeChunk chunkSize st key).2.1 errorCount rest
            else
              driverLoop chunkSize key st (errorCount + 1) rest
      else
        some (st, errorCount)

/-! ## Operation sequences (for the registry invariant) -/

/-- One public store operation, as a caller can issue it. -/
inductive Op where
  | select (fileOpt : Option File) (now : String)
  | ack (key : Key)
  | read (key : Key) (readerOk : Bool)
  | queryNext (key : Key)

/-- Run one operation for its state effect (reads and queries do not
write; failed acknowledges leave the state as they found it). -/
def runOp (chunkSize : Nat) (st : StoreState) : Op → StoreState
  | Op.select fileOpt now => (onFileSelect chunkSize st fileOpt now).1
  | Op.ack key => (acknowledgeChunk chunkSize st key).2.1
  | Op.read key readerOk => (readChunk st key readerOk).state
  | Op.queryNext _ => st

/-- Run a sequence of operations from a starting state. -/
def runOps (chunkSize : Nat) (st : StoreState) : List Op → StoreState
  | [] => st
  | op :: rest => runOps chunkSize (runOp chunkSize st op) rest

/-- The window invariant of one registry entry: `left ≤ right ≤ size`
and the window spans at most one chunk. -/
def MetaInv (chunkSize : Nat) (m : FileMeta) : Prop :=
  m.left ≤ m.right ∧ m.right ≤ m.file.size ∧ m.right - m.left ≤ chunkSize

instance (chunkSize : Nat) (m : FileMeta) : Decidable (MetaInv chunkSize m) :=
  inferInstanceAs (Decidable (_ ∧ _ ∧ _))

/-! ## Concrete fixtures used by scenario theorems and witnesses -/

/-- A file name for concrete scenarios. -/
def fname : String := "f"

/-- A registration timestamp for concrete scenarios. -/
def tstamp : String := "1700"

/-- The key the store derives for `fname` at `tstamp`. -/
def sKey : Key := fname ++ tstamp

/-- A 100,000-byte file (the spec's chunk-count scenario). -/
def file100k : File := ⟨fname, 100000, fun _ => 0⟩

/-- The store right after registering `file100k` with chunk size
16,384. -/
def reg100k : StoreState := (onFileSelect 16384 [] (some file100k) tstamp).1

/-- A 7-byte file driven with chunk size 1: seven one-byte chunks. -/
def file7 : File := ⟨fname, 7, fun _ => 0⟩

/-- The store right after registering `file7` with chunk size 1. -/
def reg7 : StoreState := (onFileSelect 1 [] (some file7) tstamp).1

/-- Apply `acknowledgeChunk` `n` times to the store. -/
def ackIter (chunkSize : Nat) (key : Key) (st : StoreState) : Nat → StoreState
  | 0 => st
  | n + 1 => ackIter chunkSize key (acknowledgeChunk chunkSize st key).2.1 n

/-- Iteration oracle with two isolated failures, then a success, then a
third failure: no streak of 3 consecutive failures, with plenty of
successes available afterwards. -/
def oracleScattered : List Bool :=
  [false, false, true, false, true, true, true, true, true, true]

/-- Iteration oracle of the spec's abandonment scenario: chunks 1 and 2
succeed, then the byte source fails three times in a row. -/
def oracleChunk3 : List Bool := [true, true, false, false, false]

/-- A callback effect where subscriber `0` unsubscribes subscriber `1`
while handling an event. -/
def exEff : SubId → List SubId := fun s => if s = 0 then [1] else []

/-! ## Helper lemmas -/

/-- Assignment followed by lookup on the store's key-value record. -/
theorem lookupKey_setKey (st : StoreState) (k : Key) (m : FileMeta)
    (k' : Key) :
    lookupKey (setKey st k m) k' = if k = k' then some m else lookupKey st k' := by
  induction st with
  | nil => simp [setKey, lookupKey]
  | cons hd tl ih =>
      obtain ⟨k0, m0⟩ := hd
      by_cases h0 : k0 = k
      · subst h0
        by_cases h1 : k0 = k'
        · subst h1; simp [setKey, lookupKey]
        · simp [setKey, lookupKey, h1]
      · by_cases h1 : k0 = k'
        · subst h1
          have : ¬ k = k0 := fun h => h0 h.symm
          simp [setKey, lookupKey, h0, this]
        · simp [setKey, lookupKey, h0, h1, ih]

/-- The callbacks invoked by a live-set publish pass form a subsequence
of the subscriber set as of publish time, whatever has been deleted so
far. -/
theorem forEachLiveAux_sublist (eff : SubId → List SubId) :
    ∀ (subs deleted : List SubId),
      (forEachLiveAux eff deleted subs).Sublist subs := by
  intro subs
  induction subs with
  | nil => intro deleted; simp [forEachLiveAux]
  | cons cb rest ih =>
      intro deleted
      rw [forEachLiveAux]
      by_cases h : cb ∈ deleted
      · simp only [if_pos h]
        exact (ih deleted).cons cb
      · simp only [if_neg h]
        exact (ih (deleted ++ eff cb)).cons₂ cb

/-- The callbacks invoked by a publish pass form a subsequence of the
subscriber set as of publish time. -/
theorem forEachLive_sublist (eff : SubId → List SubId)
    (subs : List SubId) : (forEachLive eff subs).Sublist subs :=
  forEachLiveAux_sublist eff subs []

/-- A publish pass in which every callback unsubscribes only itself or
subscribers already visited before it (no member later in insertion
order, expressed pairwise: `b` after `a` implies `b ∉ eff a`) invokes
every subscriber: such unsubscriptions never change the current
pass. -/
theorem forEachLiveAux_past_only (eff : SubId → List SubId) :
    ∀ subs deleted : List SubId,
      List.Pairwise (fun a b => b ∉ eff a) subs →
      (∀ x ∈ subs, x ∉ deleted) →
      forEachLiveAux eff deleted subs = subs := by
  intro subs
  induction subs with
  | nil => intro deleted _ _; rfl
  | cons cb rest ih =>
      intro deleted hpw hdel
      obtain ⟨hcb, hrest⟩ := List.pairwise_cons.mp hpw
      rw [forEachLiveAux, if_neg (hdel cb (List.mem_cons_self cb rest))]
      congr 1
      refine ih (deleted ++ eff cb) hrest ?_
      intro x hx
      rw [List.mem_append]
      rintro (hx1 | hx2)
      · exact hdel x (List.mem_cons_of_mem cb hx) hx1
      · exact hcb x hx hx2

/-- A publish pass whose callbacks unsubscribe only themselves or
already-visited subscribers invokes every publish-time subscriber. -/
theorem forEachLive_past_only (eff : SubId → List SubId)
    (subs : List SubId)
    (hpw : List.Pairwise (fun a b => b ∉ eff a) subs) :
    forEachLive eff subs = subs :=
  forEachLiveAux_past_only eff subs [] hpw (by simp)

/-- The state component of a `readChunk` outcome is always the state
the call was given: the promise executor never writes `state`. -/
theorem readChunk_state (st : StoreState) (key : Key) (readerOk : Bool) :
    (readChunk st key readerOk).state = st := by
  unfold readChunk
  cases lookupKey st key with
  | none => rfl
  | some m =>
      by_cases h : m.left = m.right
      · simp [h]
      · cases readerOk <;> simp [h]

/-! ## Claim theorems -/

/-- Claim C9: when the change event carries no file, `onFileSelect`
returns without modifying the registry and without publishing any
event: the whole store state is unchanged. -/
theorem onFileSelect_noFile_noop (chunkSize : Nat) (st : StoreState)
    (now : String) :
    onFileSelect chunkSize st none now = (st, []) := rfl

/-- Claim C8: `hasNextChunk` returns `true` exactly when the key is
registered with a non-terminal window, and returns `false` (rather than
failing) for an unknown key. -/
theorem hasNextChunk_spec (st : StoreState) (key : Key) :
    (hasNextChunk st key = true ↔
      ∃ m, lookupKey st key = some m ∧ m.left ≠ m.right) ∧
    (lookupKey st key = none → hasNextChunk st key = false) := by
  cases h : lookupKey st key with
  | none => simp [hasNextChunk, h]
  | some m => simp [hasNextChunk, h, bne_iff_ne]

/-- Witness for C8 at a concrete input: the empty registry knows no
key, and `hasNextChunk` answers `false` there. -/
theorem hasNextChunk_spec_w : hasNextChunk [] sKey = false :=
  (hasNextChunk_spec [] sKey).2 rfl

/-- Claim C7: registering a file creates the window
`[0, min chunkSize size)` and publishes exactly one `file-select`
event, with no error path; a zero-length file is terminal immediately:
`hasNextChunk` is `false` and `readChunk` rejects with `eof` without
starting the underlying byte-range read. -/
theorem onFileSelect_registers (chunkSize : Nat) (st : StoreState)
    (file : File) (now : String) :
    onFileSelect chunkSize st (some file) now =
      (setKey st (file.name ++ now) ⟨0, min chunkSize file.size, file⟩,
       [⟨file.name ++ now, EventName.fileSelect⟩]) ∧
    (file.size = 0 →
      hasNextChunk (onFileSelect chunkSize st (some file) now).1
        (file.name ++ now) = false ∧
      ∀ readerOk : Bool,
        readChunk (onFileSelect chunkSize st (some file) now).1
          (file.name ++ now) readerOk =
        ⟨Except.error ReadErr.eof,
         (onFileSelect chunkSize st (some file) now).1, false, []⟩) := by
  refine ⟨rfl, ?_⟩
  intro h0
  have hl : lookupKey (onFileSelect chunkSize st (some file) now).1
      (file.name ++ now) = some ⟨0, min chunkSize file.size, file⟩ := by
    simp [onFileSelect, lookupKey_setKey]
  refine ⟨?_, ?_⟩
  · simp [hasNextChunk, hl, h0]
  · intro readerOk
    simp [readChunk, hl, h0]

/-- A zero-length file, for the C7 witness. -/
def file0 : File := ⟨fname, 0, fun _ => 0⟩

/-- Witness for C7 at a concrete input: registering the zero-length
`file0` yields a terminal window with no readable chunk. -/
theorem onFileSelect_registers_w :
    hasNextChunk (onFileSelect 4 [] (some file0) tstamp).1
      (File.name file0 ++ tstamp) = false ∧
    readChunk (onFileSelect 4 [] (some file0) tstamp).1
      (File.name file0 ++ tstamp) true =
      ⟨Except.error ReadErr.eof,
       (onFileSelect 4 [] (some file0) tstamp).1, false, []⟩ :=
  ⟨((onFileSelect_registers 4 [] file0 tstamp).2 rfl).1,
   ((onFileSelect_registers 4 [] file0 tstamp).2 rfl).2 true⟩

/-- Claim C6: `acknowledgeChunk` throws `no-file` for an absent key and
`eof` for a terminal window, in both cases leaving the registry
untouched and publishing nothing; on a non-terminal window it succeeds,
sets `left` to the old `right` and `right` to
`min (right + chunkSize) size`, and publishes exactly one
`chunk-acknowledge` event. -/
theorem acknowledgeChunk_spec (chunkSize : Nat) (st : StoreState)
    (key : Key) :
    (lookupKey st key = none →
      acknowledgeChunk chunkSize st key =
        (Except.error AckErr.noFile, st, [])) ∧
    (∀ m : FileMeta, lookupKey st key = some m → m.left = m.right →
      acknowledgeChunk chunkSize st key =
        (Except.error AckErr.eof, st, [])) ∧
    (∀ m : FileMeta, lookupKey st key = some m → m.left ≠ m.right →
      acknowledgeChunk chunkSize st key =
        (Except.ok (),
         setKey st key ⟨m.right, min (m.right + chunkSize) m.file.size,
           m.file⟩,
         [⟨key, EventName.chunkAcknowledge⟩])) := by
  refine ⟨?_, ?_, ?_⟩
  · intro h; simp [acknowledgeChunk, h]
  · intro m hm h; simp [acknowledgeChunk, hm, h]
  · intro m hm h; simp [acknowledgeChunk, hm, h]

/-- Witness for C6 at concrete inputs: an empty registry throws
`no-file`; on the freshly registered seven-byte file the window
advances from `[0, 1)` to `[1, 2)` with one `chunk-acknowledge`
event. -/
theorem acknowledgeChunk_spec_w :
    acknowledgeChunk 1 [] sKey =
      (Except.error AckErr.noFile, ([] : StoreState), []) ∧
    acknowledgeChunk 1 reg7 sKey =
      (Except.ok (),
       setKey reg7 sKey ⟨min 1 7, min (min 1 7 + 1) 7, file7⟩,
       [⟨sKey, EventName.chunkAcknowledge⟩]) :=
  ⟨(acknowledgeChunk_spec 1 [] sKey).1 rfl,
   (acknowledgeChunk_spec 1 reg7 sKey).2.2 ⟨0, min 1 7, file7⟩ rfl
     (by decide)⟩

/-- Claim C5: `readChunk` never mutates the window: on a registered,
non-terminal key a successful read leaves the state — and hence `left`
and `right` — unchanged, returns exactly the bytes `[left, right)`, and
a second read before any acknowledgement returns the identical
outcome. -/
theorem readChunk_idempotent (st : StoreState) (key : Key)
    (m : FileMeta) (hm : lookupKey st key = some m)
    (hnt : m.left ≠ m.right) :
    (readChunk st key true).state = st ∧
    lookupKey (readChunk st key true).state key = some m ∧
    (readChunk st key true).result =
      Except.ok (m.file.slice m.left m.right) ∧
    readChunk (readChunk st key true).state key true =
      readChunk st key true := by
  have h1 : readChunk st key true =
      ⟨Except.ok (m.file.slice m.left m.right), st, true,
       [⟨key, EventName.chunkRead⟩]⟩ := by
    simp [readChunk, hm, hnt]
  refine ⟨?_, ?_, ?_, ?_⟩
  · rw [h1]
  · rw [h1]; exact hm
  · rw [h1]
  · rw [readChunk_state]

/-- Witness for C5 at a concrete input: reading the freshly registered
seven-byte file twice yields the same one-byte chunk and the same
store. -/
theorem readChunk_idempotent_w :
    (readChunk reg7 sKey true).state = reg7 ∧
    lookupKey (readChunk reg7 sKey true).state sKey =
      some ⟨0, min 1 7, file7⟩ ∧
    (readChunk reg7 sKey true).result =
      Except.ok (File.slice file7 0 (min 1 7)) ∧
    readChunk (readChunk reg7 sKey true).state sKey true =
      readChunk reg7 sKey true :=
  readChunk_idempotent reg7 sKey ⟨0, min 1 7, file7⟩ rfl (by decide)

/-- Every entry of a registry state satisfies the window invariant. -/
def StateInv (chunkSize : Nat) (st : StoreState) : Prop :=
  ∀ key m, lookupKey st key = some m → MetaInv chunkSize m

/-- Each public operation preserves the registry window invariant. -/
theorem stateInv_runOp (chunkSize : Nat) (st : StoreState)
    (hinv : StateInv chunkSize st) (op : Op) :
    StateInv chunkSize (runOp chunkSize st op) := by
  cases op with
  | select fileOpt now =>
      cases fileOpt with
      | none => exact hinv
      | some file =>
          intro key m hm
          rw [runOp, onFileSelect] at hm
          simp only [lookupKey_setKey] at hm
          split at hm
          · cases hm
            exact ⟨Nat.zero_le _, min_le_right _ _,
              le_trans (Nat.sub_le _ _) (min_le_left _ _)⟩
          · exact hinv key m hm
  | ack key' =>
      intro key m hm
      rw [runOp] at hm
      cases hl : lookupKey st key' with
      | none =>
          simp only [acknowledgeChunk, hl] at hm
          exact hinv key m hm
      | some m0 =>
          by_cases h0 : m0.left = m0.right
          · simp only [acknowledgeChunk, hl, if_pos h0] at hm
            exact hinv key m hm
          · simp only [acknowledgeChunk, hl, if_neg h0,
              lookupKey_setKey] at hm
            split at hm
            · cases hm
              have hsz : m0.right ≤ m0.file.size := (hinv key' m0 hl).2.1
              refine ⟨le_min (Nat.le_add_right _ _) hsz, min_le_right _ _, ?_⟩
              have := min_le_left (m0.right + chunkSize) m0.file.size
              simp only [min_def] at *
              omega
            · exact hinv key m hm
  | read key' readerOk =>
      intro key m hm
      rw [runOp, readChunk_state] at hm
      exact hinv key m hm
  | queryNext _ => exact hinv

/-- Claim C3: with a positive chunk size fixed at construction, every
window reachable by any sequence of register, read, acknowledge and
has-next operations from the empty registry satisfies
`left ≤ right ≤ size` and `right - left ≤ chunkSize`. -/
theorem registry_window_invariant (chunkSize : Nat)
    (_hC : 0 < chunkSize) (ops : List Op) (key : Key) (m : FileMeta)
    (hm : lookupKey (runOps chunkSize [] ops) key = some m) :
    MetaInv chunkSize m := by
  suffices h : ∀ st : StoreState, StateInv chunkSize st →
      StateInv chunkSize (runOps chunkSize st ops) by
    refine h [] ?_ key m hm
    intro k m' hm'
    cases hm'
  clear hm
  induction ops with
  | nil => intro st h; exact h
  | cons op rest ih =>
      intro st h
      exact ih _ (stateInv_runOp chunkSize st h op)

/-- Witness for C3 at a concrete input: after registering the
seven-byte file with chunk size 1 and acknowledging once, the stored
window satisfies the invariant. -/
theorem registry_window_invariant_w :
    MetaInv 1 ⟨min 1 7, min (min 1 7 + 1) 7, file7⟩ :=
  registry_window_invariant 1 (by decide)
    [Op.select (some file7) tstamp, Op.ack sKey] sKey
    ⟨min 1 7, min (min 1 7 + 1) 7, file7⟩ rfl

/-- The number of non-terminal windows of a `size`-byte file, driven by
the `acknowledgeChunk` advance, is the ceiling of `size / chunkSize`:
auxiliary form, for a window positioned at `l` with the reachable shape
`right = min (left + chunkSize) size`. -/
theorem windowSteps_formula (chunkSize size : Nat) (hC : 0 < chunkSize) :
    ∀ fuel l, l ≤ size → size - l < fuel →
      windowSteps chunkSize size fuel (l, min (l + chunkSize) size) =
        (size - l + chunkSize - 1) / chunkSize := by
  intro fuel
  induction fuel with
  | zero => intro l _ h; omega
  | succ fuel ih =>
      intro l hl hfuel
      by_cases hterm : l = size
      · subst hterm
        have hmin : min (l + chunkSize) l = l :=
          min_eq_right (Nat.le_add_right _ _)
        rw [hmin, windowSteps, if_pos rfl]
        have : l - l + chunkSize - 1 < chunkSize := by omega
        rw [Nat.div_eq_of_lt this]
      · have hlt : l < size := Nat.lt_of_le_of_ne hl hterm
        have hr1 : l + 1 ≤ min (l + chunkSize) size :=
          le_min (by omega) (by omega)
        have hrle : min (l + chunkSize) size ≤ size := min_le_right _ _
        have hne : l ≠ min (l + chunkSize) size := by omega
        rw [windowSteps, if_neg hne]
        rw [ih (min (l + chunkSize) size) hrle (by omega)]
        by_cases hcase : size ≤ l + chunkSize
        · rw [min_eq_right hcase]
          have h1 : size - size + chunkSize - 1 < chunkSize := by omega
          rw [Nat.div_eq_of_lt h1]
          have h2 : size - l + chunkSize - 1 =
              (size - l - 1) + chunkSize := by omega
          rw [h2, Nat.add_div_right _ hC,
            Nat.div_eq_of_lt (show size - l - 1 < chunkSize by omega)]
        · have hcase' : l + chunkSize < size := by omega
          rw [min_eq_left (by omega)]
          have h2 : size - l + chunkSize - 1 =
              (size - (l + chunkSize) + chunkSize - 1) + chunkSize := by
            omega
          rw [h2, Nat.add_div_right _ hC]

/-- Claim C4: for any file of `size` bytes with positive chunk size,
the non-terminal windows visited before the terminal state number
`ceil (size / chunkSize)`; in particular a 100,000-byte file at chunk
size 16,384 yields 7 chunks, the 7th window is `[98304, 100000)` of
length 1,696, after 7 acknowledgements `hasNextChunk` is `false`, and
an 8th acknowledgement throws `eof`. -/
theorem chunk_count_spec :
    (∀ chunkSize size : Nat, 0 < chunkSize →
      windowSteps chunkSize size (size + 1) (0, min chunkSize size) =
        (size + chunkSize - 1) / chunkSize) ∧
    windowSteps 16384 100000 8 (0, min 16384 100000) = 7 ∧
    (lookupKey (ackIter 16384 sKey reg100k 6) sKey).map
      (fun m => (m.left, m.right)) = some (98304, 100000) ∧
    (lookupKey (ackIter 16384 sKey reg100k 6) sKey).map
      (fun m => m.right - m.left) = some 1696 ∧
    hasNextChunk (ackIter 16384 sKey reg100k 7) sKey = false ∧
    (acknowledgeChunk 16384 (ackIter 16384 sKey reg100k 7) sKey).1 =
      Except.error AckErr.eof := by
  refine ⟨?_, by decide, by decide, by decide, by decide, rfl⟩
  intro chunkSize size hC
  have h := windowSteps_formula chunkSize size hC (size + 1) 0
    (Nat.zero_le _) (by omega)
  simpa using h

/-- Witness for C4 at a concrete input: a 7-byte file at chunk size 3
visits `ceil (7 / 3) = 3` non-terminal windows. -/
theorem chunk_count_spec_w :
    windowSteps 3 7 (7 + 1) (0, min 3 7) = (7 + 3 - 1) / 3 :=
  chunk_count_spec.1 3 7 (by decide)

/-- Counterexample to claim C2: on the seven-chunk file, two isolated
failures, then a successful iteration, then one more failure — no
streak of three consecutive failures, and only successes left in the
oracle — still make the driver abandon: `errorCount` is cumulative, so
the loop exits with `errorCount = 3`, the window at `[1, 2)`, and six
chunks undelivered. -/
theorem driver_abandons_on_scattered_failures :
    (driverLoop 1 sKey reg7 0 oracleScattered).map
      (fun p => ((lookupKey p.1 sKey).map (fun m => (m.left, m.right)),
        hasNextChunk p.1 sKey, p.2)) =
      some (some (1, 2), true, 3) := by decide

/-- Claim C2 (amended): the driver's budget counts cumulative failures:
whenever the loop returns, either `hasNextChunk` is `false` (all chunks
acknowledged) or at least 3 failures were counted; three straight
failures abandon a transfer with the store exactly as it was; and in
the spec's scenario — failures starting at chunk 3 of 7 — the driver
abandons with the window still at chunk 3's start, 2 chunks delivered
and 5 undelivered. -/
theorem driver_retry_budget :
    (∀ (chunkSize : Nat) (key : Key) (st : StoreState)
       (errs : Nat) (oracle : List Bool) (st' : StoreState) (e : Nat),
      driverLoop chunkSize key st errs oracle = some (st', e) →
      hasNextChunk st' key = false ∨ 3 ≤ e) ∧
    (∀ (chunkSize : Nat) (key : Key) (st : StoreState),
      hasNextChunk st key = true →
      driverLoop chunkSize key st 0 [false, false, false] =
        some (st, 3)) ∧
    (driverLoop 1 sKey reg7 0 oracleChunk3).map
      (fun p => ((lookupKey p.1 sKey).map (fun m => (m.left, m.right)),
        p.2)) = some (some (2, 3), 3) := by
  refine ⟨?_, ?_, by decide⟩
  · intro chunkSize key st errs oracle
    induction oracle generalizing st errs with
    | nil =>
        intro st' e h
        rw [driverLoop] at h
        split at h
        · cases h
        · rename_i hcond
          push_neg at hcond
          have hst : st = st' ∧ errs = e := by simpa using h
          obtain ⟨rfl, rfl⟩ := hst
          rcases Bool.eq_false_or_eq_true (hasNextChunk st key) with hb | hb
          · right
            have := hcond hb
            omega
          · exact Or.inl hb
    | cons ok rest ih =>
        intro st' e h
        rw [driverLoop] at h
        split at h
        · cases ok
          · rw [if_neg Bool.false_ne_true] at h
            exact ih _ _ _ _ h
          · rw [if_pos rfl] at h
            exact ih _ _ _ _ h
        · rename_i hcond
          push_neg at hcond
          have hst : st = st' ∧ errs = e := by simpa using h
          obtain ⟨rfl, rfl⟩ := hst
          rcases Bool.eq_false_or_eq_true (hasNextChunk st key) with hb | hb
          · right
            have := hcond hb
            omega
          · exact Or.inl hb
  · intro chunkSize key st h
    simp [driverLoop, h]

/-- Witness for C2 (amended) at concrete inputs: the chunk-3 scenario
run exits after 3 counted failures with chunks remaining, and three
straight failures on the fresh seven-byte registration abandon it
untouched. -/
theorem driver_retry_budget_w :
    (hasNextChunk (ackIter 1 sKey reg7 2) sKey = false ∨ 3 ≤ 3) ∧
    driverLoop 1 sKey reg7 0 [false, false, false] = some (reg7, 3) :=
  ⟨driver_retry_budget.1 1 sKey reg7 0 oracleChunk3
    (ackIter 1 sKey reg7 2) 3 rfl,
   driver_retry_budget.2.1 1 sKey reg7 (by decide)⟩

/-- Counterexample to claim C1: delivery is NOT a snapshot of the
subscriber set at publish time.  With subscribers `[0, 1]` and
subscriber `0` unsubscribing subscriber `1` while handling the event,
subscriber `1` — a member of the set when the publish began — is
skipped in the very same delivery pass, unlike under snapshot
delivery. -/
theorem live_delivery_skips_unsubscribed :
    (1 : SubId) ∈ ([0, 1] : List SubId) ∧
    forEachLive exEff [0, 1] = [0] ∧
    forEachSnapshot exEff [0, 1] = [0, 1] := by decide

/-- Claim C1 (amended): publish iterates the live subscriber set in
insertion order: the callbacks invoked form a subsequence of the
subscriber set as of publish time (never more), a callback that is not
subscribed when the event is published is not invoked, and whenever
every callback unsubscribes only itself or subscribers already visited
before it (pairwise: no callback unsubscribes one later in insertion
order) the pass delivers to every publish-time subscriber; but a
callback that unsubscribes a not-yet-visited subscriber removes it
from the current pass. -/
theorem delivery_over_live_set (eff : SubId → List SubId)
    (subs : List SubId) (cb : SubId) :
    (forEachLive eff subs).Sublist subs ∧
    (cb ∉ subs → cb ∉ forEachLive eff subs) ∧
    (List.Pairwise (fun a b => b ∉ eff a) subs →
      forEachLive eff subs = subs) := by
  refine ⟨forEachLive_sublist eff subs, ?_, ?_⟩
  · intro hab hmem
    exact hab ((forEachLive_sublist eff subs).subset hmem)
  · intro hpw
    exact forEachLive_past_only eff subs hpw

/-- A callback effect where subscriber `5` unsubscribes both itself and
the already-visited subscriber `4` while handling an event. -/
def pastEff : SubId → List SubId := fun s => if s = 5 then [4, 5] else []

/-- Witness for C1 (amended) at a concrete input: with subscribers
`[4, 5]`, where callback `5` unsubscribes itself and the
already-visited `4` during delivery, the pass still invokes both
callbacks, never invokes the unsubscribed `9`, and stays inside the
publish-time set. -/
theorem delivery_over_live_set_w :
    (forEachLive pastEff [4, 5]).Sublist [4, 5] ∧
    (9 : SubId) ∉ forEachLive pastEff [4, 5] ∧
    forEachLive pastEff [4, 5] = [4, 5] :=
  ⟨(delivery_over_live_set pastEff [4, 5] 9).1,
   (delivery_over_live_set pastEff [4, 5] 9).2.1 (by decide),
   (delivery_over_live_set pastEff [4, 5] 9).2.2 (by decide)⟩

/-- Claim C10: subscriptions are keyed by callback identity: adding the
same callback twice leaves the subscriber set unchanged, so any publish
pass delivers each event to it at most once; and the unsubscribe
closure is idempotent — deleting twice equals deleting once, and
deleting an absent callback is a no-op. -/
theorem subscribe_identity_spec (subs : List SubId) (cb : SubId)
    (eff : SubId → List SubId) :
    subAdd (subAdd subs cb) cb = subAdd subs cb ∧
    (subs.Nodup → (subAdd subs cb).Nodup ∧ (subDelete subs cb).Nodup ∧
      (forEachLive eff subs).count cb ≤ 1) ∧
    subDelete (subDelete subs cb) cb = subDelete subs cb ∧
    (cb ∉ subs → subDelete subs cb = subs) := by
  refine ⟨?_, ?_, ?_, ?_⟩
  · by_cases h : cb ∈ subs
    · simp [subAdd, h]
    · simp only [subAdd, if_neg h]
      rw [if_pos (by simp)]
  · intro hnd
    refine ⟨?_, ?_, ?_⟩
    · by_cases h : cb ∈ subs
      · simpa [subAdd, h] using hnd
      · rw [subAdd, if_neg h]
        simpa [List.nodup_append] using ⟨hnd, h⟩
    · exact hnd.filter _
    · calc (forEachLive eff subs).count cb
          ≤ subs.count cb := (forEachLive_sublist eff subs).count_le cb
        _ ≤ 1 := List.nodup_iff_count_le_one.mp hnd cb
  · refine List.filter_eq_self.mpr ?_
    intro a ha
    rw [subDelete] at ha
    exact (List.mem_filter.mp ha).2
  · intro h
    refine List.filter_eq_self.mpr ?_
    intro a ha
    simp only [decide_eq_true_eq]
    intro hcontra
    exact h (hcontra ▸ ha)

/-- Witness for C10 at a concrete input: subscribing callback `4` twice
to `[4]` registers it once, delivery reaches it once, and unsubscribing
it twice (or from a set it is absent from) is a no-op. -/
theorem subscribe_identity_spec_w :
    subAdd (subAdd [4] 4) 4 = subAdd [4] 4 ∧
    ((subAdd [4] 4).Nodup ∧ (subDelete [4] 4).Nodup ∧
      (forEachLive (fun _ => []) [4]).count 4 ≤ 1) ∧
    subDelete (subDelete [4] 4) 4 = subDelete [4] 4 ∧
    subDelete [5] 4 = [5] :=
  ⟨(subscribe_identity_spec [4] 4 (fun _ => [])).1,
   (subscribe_identity_spec [4] 4 (fun _ => [])).2.1 (by decide),
   (subscribe_identity_spec [4] 4 (fun _ => [])).2.2.1,
   (subscribe_identity_spec [5] 4 (fun _ => [])).2.2.2 (by decide)⟩

end IdbFileStreams
